import Mathlib

/-!
A shallow embedding of the TinyCPU 8-bit emulator (cpuarch.py) and proofs
about its loader and fetch-decode-execute engine.

Conventions of the embedding:
* Python machine integers are modelled as Nat (Int where subtraction can go
  negative); the masks  x & 0xFF  and  x & 0xFFFF  on nonnegative ints are
  written  x % 256  and  x % 65536.
* Memory is a total function Nat -> Nat; Python list indexing with a bound
  check is modelled by explicit  a < MEM_SIZE  tests where the index is not
  already provably in range, returning an indexError otherwise (a Python
  IndexError).
* Fallible operations return Except / carry an Option error component.
-/

abbrev Mem : Type := Nat → Nat

def MEM_SIZE : Nat := 65536

/-- Functional update of one memory cell (Python list item assignment). -/
def memSet (m : Mem) (a v : Nat) : Mem := fun i => if i = a then v else m i

/-- The opcode table of cpuarch.py (OPCODES). -/
def OPCODES : List (Nat × String) :=
  [(0x01, "LDA"), (0x02, "LDB"), (0x03, "LDA_MEM"), (0x04, "STA"),
   (0x05, "ADD"), (0x06, "SUB"), (0x07, "JMP"), (0x08, "JZ"),
   (0x09, "OUT"), (0xFF, "HLT")]

/-- Inverse lookup mnemonic -> opcode (OPCODES_INV); a Python dict lookup
that may fail (KeyError) is an Option. -/
def OPCODES_INV (m : String) : Option Nat :=
  (OPCODES.find? (fun p => p.2 == m)).map Prod.fst

/-- Python str.upper for the ASCII mnemonics used by the loader. -/
def pyUpper (s : String) : String := String.mk (s.data.map Char.toUpper)

/-- The CPU state of class TinyCPU. -/
structure TinyCPU where
  mem : Mem
  A : Nat
  B : Nat
  PC : Nat
  Z : Bool
  running : Bool
  output : List Nat

/-- TinyCPU.__init__: zeroed memory and registers, running, empty output. -/
def initCPU : TinyCPU :=
  { mem := fun _ => 0, A := 0, B := 0, PC := 0, Z := false,
    running := true, output := [] }

/-- Failures of TinyCPU.load_program: a KeyError on OPCODES_INV (unknown
mnemonic, Python reports the looked-up key, i.e. the upper-cased name), or
an IndexError from a memory write past the end of the list. -/
inductive LoadErr where
  | unknownMnemonic (mnemonic : String)
  | indexError
deriving DecidableEq

/-- The loop body of TinyCPU.load_program: for each (mnemonic, operand)
pair write opcode byte, low operand byte, high operand byte at addr,
addr+1, addr+2 and continue at addr+3.  Returns the memory as mutated so
far, the next free address, and the error that stopped the loop (if any),
mirroring that Python keeps earlier writes when an exception is raised.
Instructions are (mnemonic, operand) pairs; Python's default operand 0
for a 1-tuple is represented by passing the pair (mnemonic, 0). -/
def loadLoop : List (String × Nat) → Nat → Mem → Mem × Nat × Option LoadErr
  | [], addr, m => (m, addr, none)
  | instr :: rest, addr, m =>
    let op := pyUpper instr.1
    let arg := instr.2
    match OPCODES_INV op with
    | none => (m, addr, some (LoadErr.unknownMnemonic op))
    | some opcode =>
      if addr < MEM_SIZE then
        let m1 := memSet m addr opcode
        if addr + 1 < MEM_SIZE then
          let m2 := memSet m1 (addr + 1) (arg % 256)
          if addr + 2 < MEM_SIZE then
            loadLoop rest (addr + 3) (memSet m2 (addr + 2) (arg / 256 % 256))
          else (m2, addr, some LoadErr.indexError)
        else (m1, addr, some LoadErr.indexError)
      else (m, addr, some LoadErr.indexError)

/-- TinyCPU.load_program: run the encoding loop from address 0, then write
one extra HLT opcode byte (OPCODES_INV['HLT'] = 0xFF) after the program. -/
def load_program (program : List (String × Nat)) (m : Mem) :
    Mem × Option LoadErr :=
  match loadLoop program 0 m with
  | (m', _, some e) => (m', some e)
  | (m', addr, none) =>
    if addr < MEM_SIZE then (memSet m' addr 0xFF, none)
    else (m', some LoadErr.indexError)

/-- TinyCPU.fetch_operand: read the little-endian 16-bit operand at PC and
advance PC by 2 (mod 65536).  Its two reads are at self.PC and
(self.PC+1) & 0xFFFF; at every call site self.PC has just been masked, so
the Python accesses are in range. -/
def fetch_operand (s : TinyCPU) : Nat × TinyCPU :=
  let lo := s.mem s.PC
  let hi := s.mem ((s.PC + 1) % MEM_SIZE)
  let val := lo ||| (hi <<< 8)
  (val, { s with PC := (s.PC + 2) % MEM_SIZE })

/-- Failures of TinyCPU.step: the RuntimeError for an unknown opcode
(reporting the opcode and the Python integer self.PC - 1, computed after
PC was advanced), or an IndexError from an out-of-range memory access. -/
inductive StepErr where
  | unknownOpcode (opcode : Nat) (pcReported : Int)
  | indexError
deriving DecidableEq

/-- TinyCPU.step: fetch the opcode at PC, advance PC by 1 (mod 65536), and
dispatch on the opcode values of OPCODES_INV. -/
def step (s : TinyCPU) : Except StepErr TinyCPU :=
  if s.PC < MEM_SIZE then
    let opcode := s.mem s.PC
    let s1 : TinyCPU := { s with PC := (s.PC + 1) % MEM_SIZE }
    if opcode = 0x01 then        -- OPCODES_INV['LDA']
      let r := fetch_operand s1
      let imm := r.1 % 256
      .ok { r.2 with A := imm, Z := imm == 0 }
    else if opcode = 0x02 then   -- OPCODES_INV['LDB']
      let r := fetch_operand s1
      let imm := r.1 % 256
      .ok { r.2 with B := imm, Z := imm == 0 }
    else if opcode = 0x03 then   -- OPCODES_INV['LDA_MEM']
      let r := fetch_operand s1
      if r.1 < MEM_SIZE then
        let v := r.2.mem r.1 % 256
        .ok { r.2 with A := v, Z := v == 0 }
      else .error StepErr.indexError
    else if opcode = 0x04 then   -- OPCODES_INV['STA']
      let r := fetch_operand s1
      if r.1 < MEM_SIZE then
        .ok { r.2 with mem := memSet r.2.mem r.1 (r.2.A % 256) }
      else .error StepErr.indexError
    else if opcode = 0x05 then   -- OPCODES_INV['ADD']
      let v := (s1.A + s1.B) % 256
      .ok { s1 with A := v, Z := v == 0 }
    else if opcode = 0x06 then   -- OPCODES_INV['SUB']
      let v := (((s1.A : Int) - (s1.B : Int)) % 256).toNat
      .ok { s1 with A := v, Z := v == 0 }
    else if opcode = 0x07 then   -- OPCODES_INV['JMP']
      let r := fetch_operand s1
      .ok { r.2 with PC := r.1 % MEM_SIZE }
    else if opcode = 0x08 then   -- OPCODES_INV['JZ']
      let r := fetch_operand s1
      if r.2.Z then .ok { r.2 with PC := r.1 % MEM_SIZE } else .ok r.2
    else if opcode = 0x09 then   -- OPCODES_INV['OUT']
      .ok { s1 with output := s1.output ++ [s1.A] }
    else if opcode = 0xFF then   -- OPCODES_INV['HLT']
      .ok { s1 with running := false }
    else
      .error (StepErr.unknownOpcode opcode ((s1.PC : Int) - 1))
  else .error StepErr.indexError

/-- Failures of TinyCPU.run: a propagated step failure, or the
RuntimeError "Max steps reached". -/
inductive RunErr where
  | stepFailure (e : StepErr)
  | maxStepsReached
deriving DecidableEq

/-- The while loop of TinyCPU.run, with the remaining step budget as fuel;
returns the final state and the number of steps executed. -/
def runAux : TinyCPU → Nat → Except StepErr (TinyCPU × Nat)
  | s, 0 => .ok (s, 0)
  | s, fuel + 1 =>
    if s.running then
      match step s with
      | .error e => .error e
      | .ok s' =>
        match runAux s' fuel with
        | .error e => .error e
        | .ok (t, n) => .ok (t, n + 1)
    else .ok (s, 0)

def DEFAULT_MAX_STEPS : Nat := 100000

/-- TinyCPU.run: loop while running and steps < max_steps; afterwards
raise if steps >= max_steps. -/
def run (s : TinyCPU) (max_steps : Nat) : Except RunErr TinyCPU :=
  match runAux s max_steps with
  | .error e => .error (RunErr.stepFailure e)
  | .ok (t, n) =>
    if n ≥ max_steps then .error RunErr.maxStepsReached else .ok t

/-- The demo program of cpuarch.py (prog): compute 7+5 and output. -/
def prog : List (String × Nat) :=
  [("LDA", 7), ("LDB", 5), ("ADD", 0), ("OUT", 0), ("HLT", 0)]

/-- The little-endian 16-bit value held at addresses a, (a+1) % 65536. -/
def le16 (m : Mem) (a : Nat) : Nat := m a ||| (m ((a + 1) % MEM_SIZE) <<< 8)

/-! ### Generic lemmas about memSet and the run loop -/

theorem memSet_same (m : Mem) (a v : Nat) : memSet m a v a = v := by
  simp [memSet]

theorem memSet_other (m : Mem) (a v i : Nat) (h : i ≠ a) :
    memSet m a v i = m i := by
  simp [memSet, h]

theorem runAux_fixpoint (s : TinyCPU) (hrun : s.running = true)
    (hstep : step s = .ok s) : ∀ n, runAux s n = .ok (s, n) := by
  intro n
  induction n with
  | zero => rfl
  | succ k ih => simp [runAux, hrun, hstep, ih]

theorem runAux_le (fuel : Nat) : ∀ (s t : TinyCPU) (n : Nat),
    runAux s fuel = .ok (t, n) → n ≤ fuel := by
  induction fuel with
  | zero =>
    intro s t n h
    simp only [runAux, Except.ok.injEq, Prod.mk.injEq] at h
    omega
  | succ k ih =>
    intro s t n h
    unfold runAux at h
    split at h
    · split at h
      · exact absurd h (by simp)
      · split at h
        · exact absurd h (by simp)
        · rename_i x s' hs y t' n' ha
          simp only [Except.ok.injEq, Prod.mk.injEq] at h
          have := ih s' t' n' ha
          omega
    · simp only [Except.ok.injEq, Prod.mk.injEq] at h
      omega

theorem runAux_halted_of_lt (fuel : Nat) : ∀ (s t : TinyCPU) (n : Nat),
    runAux s fuel = .ok (t, n) → n < fuel → t.running = false := by
  induction fuel with
  | zero => intro s t n _ h; omega
  | succ k ih =>
    intro s t n h hn
    unfold runAux at h
    split at h
    · split at h
      · exact absurd h (by simp)
      · split at h
        · exact absurd h (by simp)
        · rename_i x s' hs y t' n' ha
          simp only [Except.ok.injEq, Prod.mk.injEq] at h
          rw [← h.1]
          exact ih s' t' n' ha (by omega)
    · rename_i hr
      simp only [Except.ok.injEq, Prod.mk.injEq] at h
      rw [← h.1]
      exact Bool.not_eq_true s.running |>.mp hr

/-! ### The run loop and the step budget (claims C1, C4, C8) -/

/-- The fresh CPU with the demo program loaded. -/
def demoCPU : TinyCPU := { initCPU with mem := (load_program prog initCPU.mem).1 }

/-- The fresh CPU with the one-instruction program [HLT] loaded. -/
def hltCPU : TinyCPU :=
  { initCPU with mem := (load_program [("HLT", 0)] initCPU.mem).1 }

/-- The fresh CPU with the self-jump program [JMP 0] loaded. -/
def jmpCPU : TinyCPU :=
  { initCPU with mem := (load_program [("JMP", 0)] initCPU.mem).1 }

/-- Claim C1 (code bug): loading the demo program
[LDA 7, LDB 5, ADD, OUT, HLT] into a fresh CPU succeeds, but running it
with the default budget does not leave Output = [12]: the loader allots 3
bytes to every instruction while the engine advances PC by only 1 past
ADD, so the fourth step fetches ADD's padding byte 0x00 at address 7 and
raises the unknown-opcode failure; OUT is never reached. -/
theorem demo_program_crashes :
    (load_program prog initCPU.mem).2 = none ∧
    run demoCPU DEFAULT_MAX_STEPS =
      .error (RunErr.stepFailure (StepErr.unknownOpcode 0 7)) :=
  ⟨rfl, rfl⟩

/-- Claim C5 (code bug): fetching an unknown opcode at address 65535
reports the opcode together with self.PC - 1 computed after PC has
wrapped to 0, i.e. the integer -1 rather than the fetch address 65535. -/
theorem unknown_opcode_report_wrap :
    step { initCPU with PC := 65535 } =
      .error (StepErr.unknownOpcode 0 (-1)) := rfl

theorem run_eq_max (s : TinyCPU) (max_steps : Nat) (t : TinyCPU)
    (h : runAux s max_steps = .ok (t, max_steps)) :
    run s max_steps = .error RunErr.maxStepsReached := by
  unfold run
  rw [h]
  exact if_pos (le_refl max_steps)

/-- Claim C4, counterexample: with the program [HLT] and budget 1 the
engine executes HLT and reaches the halted state within the budget, yet
run still raises the step-budget failure because steps >= max_steps holds
after the loop. -/
theorem run_budget_exact_halt_cex :
    (load_program [("HLT", 0)] initCPU.mem).2 = none ∧
    runAux hltCPU 1 = .ok ({ hltCPU with PC := 1, running := false }, 1) ∧
    run hltCPU 1 = .error RunErr.maxStepsReached :=
  ⟨rfl, rfl, rfl⟩

/-- Claim C4 (amended): run raises the step-budget failure exactly when
the loop performs max_steps steps, whether or not the final step halted
the engine; it returns successfully exactly when the engine halts in
strictly fewer than max_steps steps. -/
theorem run_budget_amended (s : TinyCPU) (max_steps : Nat) :
    (run s max_steps = .error RunErr.maxStepsReached ↔
      ∃ t, runAux s max_steps = .ok (t, max_steps)) ∧
    (∀ t, run s max_steps = .ok t ↔
      ∃ n, runAux s max_steps = .ok (t, n) ∧ n < max_steps ∧
        t.running = false) := by
  constructor
  · unfold run
    cases hr : runAux s max_steps with
    | error e => simp
    | ok p =>
      obtain ⟨t, n⟩ := p
      have hle := runAux_le max_steps s t n hr
      by_cases hn : n ≥ max_steps
      · have hmax : n = max_steps := le_antisymm hle hn
        subst hmax
        simp [hn]
      · simp only [if_neg hn]
        constructor
        · intro h; exact absurd h (by simp)
        · rintro ⟨t', h⟩
          simp only [Except.ok.injEq, Prod.mk.injEq] at h
          omega
  · intro t
    unfold run
    cases hr : runAux s max_steps with
    | error e => simp
    | ok p =>
      obtain ⟨t', n'⟩ := p
      by_cases hn : n' ≥ max_steps
      · simp only [if_pos hn]
        constructor
        · intro h; exact absurd h (by simp)
        · rintro ⟨n, h1, h2, h3⟩
          simp only [Except.ok.injEq, Prod.mk.injEq] at h1
          omega
      · simp only [if_neg hn]
        constructor
        · intro h
          simp only [Except.ok.injEq] at h
          refine ⟨n', ?_, by omega, ?_⟩
          · rw [← h]
          · rw [← h]
            exact runAux_halted_of_lt max_steps s t' n' hr (by omega)
        · rintro ⟨n, h1, h2, h3⟩
          simp only [Except.ok.injEq, Prod.mk.injEq] at h1
          rw [h1.1]
      
/-- Claim C8: the one-instruction program [JMP 0] jumps to its own
address forever; run with the default budget of 100000 steps raises the
step-budget failure and the engine never halts. -/
theorem jmp_self_budget_exceeded :
    (load_program [("JMP", 0)] initCPU.mem).2 = none ∧
    run jmpCPU DEFAULT_MAX_STEPS = .error RunErr.maxStepsReached :=
  ⟨rfl, run_eq_max jmpCPU DEFAULT_MAX_STEPS jmpCPU
    (runAux_fixpoint jmpCPU rfl rfl DEFAULT_MAX_STEPS)⟩

/-! ### The loader (claims C3, C6, C9, C10) -/

theorem loadLoop_ok : ∀ (program : List (String × Nat)) (addr : Nat) (m : Mem),
    (∀ p ∈ program, (OPCODES_INV (pyUpper p.1)).isSome = true) →
    addr + 3 * program.length ≤ MEM_SIZE →
    ∃ m', loadLoop program addr m = (m', addr + 3 * program.length, none) ∧
      (∀ j (hj : j < program.length),
        m' (addr + 3 * j) =
          (OPCODES_INV (pyUpper (program.get ⟨j, hj⟩).1)).getD 0 ∧
        m' (addr + 3 * j + 1) = (program.get ⟨j, hj⟩).2 % 256 ∧
        m' (addr + 3 * j + 2) = (program.get ⟨j, hj⟩).2 / 256 % 256) ∧
      (∀ a, a < addr ∨ addr + 3 * program.length ≤ a → m' a = m a) := by
  intro program
  induction program with
  | nil =>
    intro addr m _ _
    refine ⟨m, by simp [loadLoop], ?_, fun a _ => rfl⟩
    intro j hj
    simp at hj
  | cons p rest ih =>
    intro addr m hk hlen
    simp only [List.length_cons] at hlen ⊢
    have hkp : (OPCODES_INV (pyUpper p.1)).isSome = true :=
      hk p (List.mem_cons_self p rest)
    obtain ⟨opcode, hop⟩ := Option.isSome_iff_exists.mp hkp
    obtain ⟨m', hrun, hcells, hother⟩ :=
      ih (addr + 3)
        (memSet (memSet (memSet m addr opcode) (addr + 1) (p.2 % 256))
          (addr + 2) (p.2 / 256 % 256))
        (fun q hq => hk q (List.mem_cons_of_mem p hq)) (by omega)
    refine ⟨m', ?_, ?_, ?_⟩
    · simp only [loadLoop, hop]
      rw [if_pos (by omega : addr < MEM_SIZE),
        if_pos (by omega : addr + 1 < MEM_SIZE),
        if_pos (by omega : addr + 2 < MEM_SIZE), hrun]
      have : addr + 3 + 3 * rest.length = addr + 3 * (rest.length + 1) := by
        ring
      rw [this]
    · intro j hj
      match j with
      | 0 =>
        simp only [Nat.mul_zero, Nat.add_zero, List.get]
        have h0 : m' addr = opcode := by
          rw [hother addr (Or.inl (by omega)),
            memSet_other _ _ _ _ (by omega), memSet_other _ _ _ _ (by omega),
            memSet_same]
        have h1 : m' (addr + 1) = p.2 % 256 := by
          rw [hother (addr + 1) (Or.inl (by omega)),
            memSet_other _ _ _ _ (by omega), memSet_same]
        have h2 : m' (addr + 2) = p.2 / 256 % 256 := by
          rw [hother (addr + 2) (Or.inl (by omega)), memSet_same]
        rw [h0, h1, h2, hop]
        exact ⟨rfl, rfl, rfl⟩
      | k + 1 =>
        have hk' : k < rest.length := by omega
        have e1 : addr + 3 * (k + 1) = addr + 3 + 3 * k := by ring
        rw [e1]
        simp only [List.get]
        exact hcells k hk'
    · intro a ha
      have hm3 : m' a =
          (memSet (memSet (memSet m addr opcode) (addr + 1) (p.2 % 256))
            (addr + 2) (p.2 / 256 % 256)) a := by
        refine hother a ?_
        rcases ha with h | h
        · exact Or.inl (by omega)
        · exact Or.inr (by omega)
      rw [hm3, memSet_other _ _ _ _ (by omega), memSet_other _ _ _ _ (by omega),
        memSet_other _ _ _ _ (by omega)]

/-- Claim C3 (amended): for every sequence of known-mnemonic instructions
that fits in memory together with the failsafe byte (3n + 1 <= 65536,
i.e. at most 21845 instructions), load_program succeeds and writes, for
the j-th instruction, its opcode byte at 3j, the operand's low byte at
3j+1 and high byte at 3j+2, then one extra HLT opcode byte 0xFF at 3n,
leaving every cell above 3n unchanged.  Without the length bound the
claim fails: the loader does not wrap and raises an IndexError. -/
theorem load_program_layout (program : List (String × Nat)) (m : Mem)
    (hk : ∀ p ∈ program, (OPCODES_INV (pyUpper p.1)).isSome = true)
    (hlen : 3 * program.length + 1 ≤ MEM_SIZE) :
    ∃ m', load_program program m = (m', none) ∧
      (∀ j (hj : j < program.length),
        m' (3 * j) = (OPCODES_INV (pyUpper (program.get ⟨j, hj⟩).1)).getD 0 ∧
        m' (3 * j + 1) = (program.get ⟨j, hj⟩).2 % 256 ∧
        m' (3 * j + 2) = (program.get ⟨j, hj⟩).2 / 256 % 256) ∧
      m' (3 * program.length) = 0xFF ∧
      (∀ a, 3 * program.length < a → m' a = m a) := by
  obtain ⟨m1, hrun, hcells, hother⟩ := loadLoop_ok program 0 m hk (by omega)
  simp only [Nat.zero_add] at hrun hcells hother
  refine ⟨memSet m1 (3 * program.length) 0xFF, ?_, ?_, ?_, ?_⟩
  · unfold load_program
    rw [hrun]
    dsimp only
    rw [if_pos (by omega : 3 * program.length < MEM_SIZE)]
  · intro j hj
    obtain ⟨h0, h1, h2⟩ := hcells j hj
    refine ⟨?_, ?_, ?_⟩
    · rw [memSet_other _ _ _ _ (by omega), h0]
    · rw [memSet_other _ _ _ _ (by omega), h1]
    · rw [memSet_other _ _ _ _ (by omega), h2]
  · exact memSet_same _ _ _
  · intro a ha
    rw [memSet_other _ _ _ _ (by omega), hother a (Or.inr (by omega))]

/-- Claim C3, witness: loading the single-instruction program [OUT 3]
succeeds. -/
theorem load_program_layout_w :
    (load_program [("OUT", 3)] (fun _ => 0)).2 = none := by
  obtain ⟨m', h, -, -, -⟩ :=
    load_program_layout [("OUT", 3)] (fun _ => 0) (by decide) (by decide)
  rw [h]

theorem loadLoop_overflow : ∀ (k : Nat) (instr : String × Nat)
    (addr : Nat) (m : Mem),
    (OPCODES_INV (pyUpper instr.1)).isSome = true →
    1 ≤ k → MEM_SIZE < addr + 3 * k →
    (loadLoop (List.replicate k instr) addr m).2.2 =
      some LoadErr.indexError := by
  intro k
  induction k with
  | zero => intro instr addr m _ h _; omega
  | succ n ih =>
    intro instr addr m hkn _ hover
    obtain ⟨opcode, hop⟩ := Option.isSome_iff_exists.mp hkn
    rw [List.replicate_succ]
    simp only [loadLoop, hop]
    by_cases h1 : addr < MEM_SIZE
    · rw [if_pos h1]
      by_cases h2 : addr + 1 < MEM_SIZE
      · rw [if_pos h2]
        by_cases h3 : addr + 2 < MEM_SIZE
        · rw [if_pos h3]
          by_cases hz : n = 0
          · subst hz; omega
          · exact ih instr (addr + 3) _ hkn (by omega) (by omega)
        · rw [if_neg h3]
      · rw [if_neg h2]
    · rw [if_neg h1]

theorem load_program_err (program : List (String × Nat)) (m : Mem)
    (e : LoadErr) (h : (loadLoop program 0 m).2.2 = some e) :
    (load_program program m).2 = some e := by
  unfold load_program
  rcases hl : loadLoop program 0 m with ⟨m', addr, e'⟩
  rw [hl] at h
  have he : e' = some e := h
  subst he
  rfl

/-- Claim C3, counterexample: for a 21846-instruction program of known
mnemonics the loader needs addresses past 65535; it does not wrap and the
write raises an IndexError instead of producing the claimed layout. -/
theorem load_program_overflow_cex :
    (load_program (List.replicate 21846 ("OUT", 0)) (fun _ => 0)).2 =
      some LoadErr.indexError :=
  load_program_err _ _ _
    (loadLoop_overflow 21846 ("OUT", 0) 0 (fun _ => 0) (by decide)
      (by omega) (by decide))

/-- Claim C6, counterexample: load_program does not succeed on every
program regardless of length; the loader's write addresses do not wrap
modulo 65536, so a 21846-instruction program raises an IndexError. -/
theorem loader_no_wrap_cex :
    (load_program (List.replicate 21846 ("ADD", 0)) (fun _ => 0)).2 =
      some LoadErr.indexError :=
  load_program_err _ _ _
    (loadLoop_overflow 21846 ("ADD", 0) 0 (fun _ => 0) (by decide)
      (by omega) (by decide))

theorem loadLoop_append : ∀ (l1 l2 : List (String × Nat)) (addr : Nat)
    (m m1 : Mem) (a1 : Nat), loadLoop l1 addr m = (m1, a1, none) →
    loadLoop (l1 ++ l2) addr m = loadLoop l2 a1 m1 := by
  intro l1
  induction l1 with
  | nil =>
    intro l2 addr m m1 a1 h
    simp only [loadLoop, Prod.mk.injEq] at h
    rw [List.nil_append, h.1, h.2.1]
  | cons p rest ih =>
    intro l2 addr m m1 a1 h
    rw [List.cons_append]
    cases hop : OPCODES_INV (pyUpper p.1) with
    | none =>
      simp only [loadLoop, hop, Prod.mk.injEq] at h
      exact absurd h.2.2 (by simp)
    | some opcode =>
      simp only [loadLoop, hop] at h ⊢
      by_cases h1 : addr < MEM_SIZE
      · rw [if_pos h1] at h ⊢
        by_cases h2 : addr + 1 < MEM_SIZE
        · rw [if_pos h2] at h ⊢
          by_cases h3 : addr + 2 < MEM_SIZE
          · rw [if_pos h3] at h ⊢
            exact ih l2 (addr + 3) _ m1 a1 h
          · rw [if_neg h3] at h
            simp only [Prod.mk.injEq] at h
            exact absurd h.2.2 (by simp)
        · rw [if_neg h2] at h
          simp only [Prod.mk.injEq] at h
          exact absurd h.2.2 (by simp)
      · rw [if_neg h1] at h
        simp only [Prod.mk.injEq] at h
        exact absurd h.2.2 (by simp)

theorem loadLoop_append_err : ∀ (l1 l2 : List (String × Nat)) (addr : Nat)
    (m : Mem) (e : LoadErr), (loadLoop l1 addr m).2.2 = some e →
    (loadLoop (l1 ++ l2) addr m).2.2 = some e := by
  intro l1
  induction l1 with
  | nil =>
    intro l2 addr m e h
    simp only [loadLoop] at h
    exact absurd h (by simp)
  | cons p rest ih =>
    intro l2 addr m e h
    rw [List.cons_append]
    cases hop : OPCODES_INV (pyUpper p.1) with
    | none => simp only [loadLoop, hop] at h ⊢; exact h
    | some opcode =>
      simp only [loadLoop, hop] at h ⊢
      by_cases h1 : addr < MEM_SIZE
      · rw [if_pos h1] at h ⊢
        by_cases h2 : addr + 1 < MEM_SIZE
        · rw [if_pos h2] at h ⊢
          by_cases h3 : addr + 2 < MEM_SIZE
          · rw [if_pos h3] at h ⊢
            exact ih l2 (addr + 3) _ e h
          · rw [if_neg h3] at h ⊢; exact h
        · rw [if_neg h2] at h ⊢; exact h
      · rw [if_neg h1] at h ⊢; exact h

/-- Claim C9 (amended): when the instructions before the first unknown
mnemonic fit in memory, load_program stops with the unknown-mnemonic
failure reporting that mnemonic (upper-cased, as Python's KeyError on the
looked-up key), and no byte at or after the offending instruction's slot
is written. -/
theorem unknown_mnemonic_load (pre rest : List (String × Nat))
    (bad : String × Nat) (m : Mem)
    (hk : ∀ p ∈ pre, (OPCODES_INV (pyUpper p.1)).isSome = true)
    (hbad : OPCODES_INV (pyUpper bad.1) = none)
    (hlen : 3 * pre.length ≤ MEM_SIZE) :
    ∃ m1, load_program (pre ++ bad :: rest) m =
        (m1, some (LoadErr.unknownMnemonic (pyUpper bad.1))) ∧
      ∀ a, 3 * pre.length ≤ a → m1 a = m a := by
  obtain ⟨m1, hrun, -, hother⟩ := loadLoop_ok pre 0 m hk (by omega)
  simp only [Nat.zero_add] at hrun hother
  refine ⟨m1, ?_, fun a ha => hother a (Or.inr (by omega))⟩
  unfold load_program
  rw [loadLoop_append pre (bad :: rest) 0 m m1 (3 * pre.length) hrun]
  simp only [loadLoop, hbad]

/-- Claim C9, witness: loading [LDA 1, xyz 0] fails reporting the unknown
mnemonic XYZ, and the cells of the offending slot stay zero. -/
theorem unknown_mnemonic_load_w :
    ∃ m1, load_program [("LDA", 1), ("xyz", 0)] (fun _ => 0) =
        (m1, some (LoadErr.unknownMnemonic "XYZ")) ∧
      ∀ a, 3 ≤ a → m1 a = 0 := by
  obtain ⟨m1, h1, h2⟩ :=
    unknown_mnemonic_load [("LDA", 1)] [] ("xyz", 0) (fun _ => 0)
      (by decide) (by decide) (by decide)
  exact ⟨m1, h1, h2⟩

/-- Claim C9, counterexample: if the instructions before the unknown
mnemonic overflow memory, load_program raises IndexError instead of a
failure reporting the mnemonic. -/
theorem unknown_mnemonic_cex :
    (load_program (List.replicate 21846 ("LDB", 0) ++ [("XYZ", 0)])
      (fun _ => 0)).2 = some LoadErr.indexError :=
  load_program_err _ _ _
    (loadLoop_append_err (List.replicate 21846 ("LDB", 0)) [("XYZ", 0)] 0
      (fun _ => 0) LoadErr.indexError
      (loadLoop_overflow 21846 ("LDB", 0) 0 (fun _ => 0) (by decide)
        (by omega) (by decide)))

theorem loadLoop_congr (p1 p2 : List (String × Nat))
    (h : List.Forall₂ (fun a b => pyUpper a.1 = pyUpper b.1 ∧ a.2 = b.2)
      p1 p2) :
    ∀ (addr : Nat) (m : Mem), loadLoop p1 addr m = loadLoop p2 addr m := by
  induction h with
  | nil => intro addr m; rfl
  | cons hpq hrest ih =>
    intro addr m
    obtain ⟨hm, ha⟩ := hpq
    simp only [loadLoop, hm, ha]
    cases hop : OPCODES_INV (pyUpper _) with
    | none => rfl
    | some opcode =>
      dsimp only
      by_cases h1 : addr < MEM_SIZE
      · simp only [if_pos h1]
        by_cases h2 : addr + 1 < MEM_SIZE
        · simp only [if_pos h2]
          by_cases h3 : addr + 2 < MEM_SIZE
          · simp only [if_pos h3]
            exact ih (addr + 3) _
          · simp only [if_neg h3]
        · simp only [if_neg h2]
      · simp only [if_neg h1]

/-- Claim C10: the loader upper-cases each mnemonic before the table
lookup, so two programs whose mnemonics agree up to letter case (and
whose operands agree) load identically. -/
theorem load_case_insensitive (p1 p2 : List (String × Nat)) (m : Mem)
    (h : List.Forall₂ (fun a b => pyUpper a.1 = pyUpper b.1 ∧ a.2 = b.2)
      p1 p2) :
    load_program p1 m = load_program p2 m := by
  unfold load_program
  rw [loadLoop_congr p1 p2 h 0 m]

/-- Claim C10, witness: the lower-case spelling lda loads the same as
LDA. -/
theorem load_case_insensitive_w :
    load_program [("lda", 7)] (fun _ => 0) =
      load_program [("LDA", 7)] (fun _ => 0) :=
  load_case_insensitive _ _ _
    (List.Forall₂.cons ⟨by decide, rfl⟩ List.Forall₂.nil)

/-! ### The execution engine, one step (claims C2, C5, C6, C7) -/

theorem lor_shift_byte_lt (lo hi : Nat) (hl : lo < 256) (hh : hi < 256) :
    lo ||| (hi <<< 8) < 65536 := by
  have h1 : hi <<< 8 = 2 ^ 8 * hi := by rw [Nat.shiftLeft_eq]; ring
  rw [h1, Nat.lor_comm, ← Nat.mul_add_lt_is_or hl hi]
  omega

theorem step_eq_oob (s : TinyCPU) (hpc : ¬ s.PC < MEM_SIZE) :
    step s = .error StepErr.indexError := by
  unfold step
  rw [if_neg hpc]

theorem step_eq_LDA (s : TinyCPU) (hpc : s.PC < MEM_SIZE)
    (hop : s.mem s.PC = 0x01) :
    step s = .ok { s with
      PC := ((s.PC + 1) % MEM_SIZE + 2) % MEM_SIZE,
      A := le16 s.mem ((s.PC + 1) % MEM_SIZE) % 256,
      Z := (le16 s.mem ((s.PC + 1) % MEM_SIZE) % 256 == 0) } := by
  unfold step
  rw [if_pos hpc]
  dsimp only
  rw [hop]
  rfl

theorem step_eq_LDB (s : TinyCPU) (hpc : s.PC < MEM_SIZE)
    (hop : s.mem s.PC = 0x02) :
    step s = .ok { s with
      PC := ((s.PC + 1) % MEM_SIZE + 2) % MEM_SIZE,
      B := le16 s.mem ((s.PC + 1) % MEM_SIZE) % 256,
      Z := (le16 s.mem ((s.PC + 1) % MEM_SIZE) % 256 == 0) } := by
  unfold step
  rw [if_pos hpc]
  dsimp only
  rw [hop]
  rfl

theorem step_eq_LDA_MEM (s : TinyCPU) (hpc : s.PC < MEM_SIZE)
    (hop : s.mem s.PC = 0x03)
    (haddr : le16 s.mem ((s.PC + 1) % MEM_SIZE) < MEM_SIZE) :
    step s = .ok { s with
      PC := ((s.PC + 1) % MEM_SIZE + 2) % MEM_SIZE,
      A := s.mem (le16 s.mem ((s.PC + 1) % MEM_SIZE)) % 256,
      Z := (s.mem (le16 s.mem ((s.PC + 1) % MEM_SIZE)) % 256 == 0) } := by
  unfold step
  rw [if_pos hpc]
  dsimp only [fetch_operand]
  rw [hop]
  have hc : (s.mem ((s.PC + 1) % MEM_SIZE) |||
      s.mem (((s.PC + 1) % MEM_SIZE + 1) % MEM_SIZE) <<< 8)
      = le16 s.mem ((s.PC + 1) % MEM_SIZE) := rfl
  rw [hc]
  simp only [if_pos haddr]
  rfl

theorem step_eq_LDA_MEM_err (s : TinyCPU) (hpc : s.PC < MEM_SIZE)
    (hop : s.mem s.PC = 0x03)
    (haddr : ¬ le16 s.mem ((s.PC + 1) % MEM_SIZE) < MEM_SIZE) :
    step s = .error StepErr.indexError := by
  unfold step
  rw [if_pos hpc]
  dsimp only [fetch_operand]
  rw [hop]
  have hc : (s.mem ((s.PC + 1) % MEM_SIZE) |||
      s.mem (((s.PC + 1) % MEM_SIZE + 1) % MEM_SIZE) <<< 8)
      = le16 s.mem ((s.PC + 1) % MEM_SIZE) := rfl
  rw [hc]
  simp only [if_neg haddr]
  rfl

theorem step_eq_STA (s : TinyCPU) (hpc : s.PC < MEM_SIZE)
    (hop : s.mem s.PC = 0x04)
    (haddr : le16 s.mem ((s.PC + 1) % MEM_SIZE) < MEM_SIZE) :
    step s = .ok { s with
      PC := ((s.PC + 1) % MEM_SIZE + 2) % MEM_SIZE,
      mem := memSet s.mem (le16 s.mem ((s.PC + 1) % MEM_SIZE))
        (s.A % 256) } := by
  unfold step
  rw [if_pos hpc]
  dsimp only [fetch_operand]
  rw [hop]
  have hc : (s.mem ((s.PC + 1) % MEM_SIZE) |||
      s.mem (((s.PC + 1) % MEM_SIZE + 1) % MEM_SIZE) <<< 8)
      = le16 s.mem ((s.PC + 1) % MEM_SIZE) := rfl
  rw [hc]
  simp only [if_pos haddr]
  rfl

theorem step_eq_STA_err (s : TinyCPU) (hpc : s.PC < MEM_SIZE)
    (hop : s.mem s.PC = 0x04)
    (haddr : ¬ le16 s.mem ((s.PC + 1) % MEM_SIZE) < MEM_SIZE) :
    step s = .error StepErr.indexError := by
  unfold step
  rw [if_pos hpc]
  dsimp only [fetch_operand]
  rw [hop]
  have hc : (s.mem ((s.PC + 1) % MEM_SIZE) |||
      s.mem (((s.PC + 1) % MEM_SIZE + 1) % MEM_SIZE) <<< 8)
      = le16 s.mem ((s.PC + 1) % MEM_SIZE) := rfl
  rw [hc]
  simp only [if_neg haddr]
  rfl

theorem step_eq_ADD (s : TinyCPU) (hpc : s.PC < MEM_SIZE)
    (hop : s.mem s.PC = 0x05) :
    step s = .ok { s with
      PC := (s.PC + 1) % MEM_SIZE,
      A := (s.A + s.B) % 256,
      Z := ((s.A + s.B) % 256 == 0) } := by
  unfold step
  rw [if_pos hpc]
  dsimp only
  rw [hop]
  rfl

theorem step_eq_SUB (s : TinyCPU) (hpc : s.PC < MEM_SIZE)
    (hop : s.mem s.PC = 0x06) :
    step s = .ok { s with
      PC := (s.PC + 1) % MEM_SIZE,
      A := (((s.A : Int) - (s.B : Int)) % 256).toNat,
      Z := ((((s.A : Int) - (s.B : Int)) % 256).toNat == 0) } := by
  unfold step
  rw [if_pos hpc]
  dsimp only
  rw [hop]
  rfl

theorem step_eq_JMP (s : TinyCPU) (hpc : s.PC < MEM_SIZE)
    (hop : s.mem s.PC = 0x07) :
    step s = .ok { s with
      PC := le16 s.mem ((s.PC + 1) % MEM_SIZE) % MEM_SIZE } := by
  unfold step
  rw [if_pos hpc]
  dsimp only
  rw [hop]
  rfl

theorem step_eq_JZ_taken (s : TinyCPU) (hpc : s.PC < MEM_SIZE)
    (hop : s.mem s.PC = 0x08) (hz : s.Z = true) :
    step s = .ok { s with
      PC := le16 s.mem ((s.PC + 1) % MEM_SIZE) % MEM_SIZE } := by
  unfold step
  rw [if_pos hpc]
  dsimp only [fetch_operand]
  rw [hop, hz]
  rfl

theorem step_eq_JZ_not (s : TinyCPU) (hpc : s.PC < MEM_SIZE)
    (hop : s.mem s.PC = 0x08) (hz : s.Z = false) :
    step s = .ok { s with
      PC := ((s.PC + 1) % MEM_SIZE + 2) % MEM_SIZE } := by
  unfold step
  rw [if_pos hpc]
  dsimp only [fetch_operand]
  rw [hop, hz]
  rfl

theorem step_eq_OUT (s : TinyCPU) (hpc : s.PC < MEM_SIZE)
    (hop : s.mem s.PC = 0x09) :
    step s = .ok { s with
      PC := (s.PC + 1) % MEM_SIZE,
      output := s.output ++ [s.A] } := by
  unfold step
  rw [if_pos hpc]
  dsimp only
  rw [hop]
  rfl

theorem step_eq_HLT (s : TinyCPU) (hpc : s.PC < MEM_SIZE)
    (hop : s.mem s.PC = 0xFF) :
    step s = .ok { s with
      PC := (s.PC + 1) % MEM_SIZE,
      running := false } := by
  unfold step
  rw [if_pos hpc]
  dsimp only
  rw [hop]
  rfl

theorem step_eq_unknown (s : TinyCPU) (hpc : s.PC < MEM_SIZE)
    (h1 : s.mem s.PC ≠ 0x01) (h2 : s.mem s.PC ≠ 0x02)
    (h3 : s.mem s.PC ≠ 0x03) (h4 : s.mem s.PC ≠ 0x04)
    (h5 : s.mem s.PC ≠ 0x05) (h6 : s.mem s.PC ≠ 0x06)
    (h7 : s.mem s.PC ≠ 0x07) (h8 : s.mem s.PC ≠ 0x08)
    (h9 : s.mem s.PC ≠ 0x09) (hff : s.mem s.PC ≠ 0xFF) :
    step s = .error (StepErr.unknownOpcode (s.mem s.PC)
      (((s.PC + 1) % MEM_SIZE : Nat) - (1 : Int))) := by
  unfold step
  rw [if_pos hpc]
  dsimp only
  rw [if_neg h1, if_neg h2, if_neg h3, if_neg h4, if_neg h5, if_neg h6,
    if_neg h7, if_neg h8, if_neg h9, if_neg hff]

/-- Claim C7: after a successful step, Z equals (value == 0) for the
register value just produced (A for LDA, LDA_MEM, ADD, SUB; B for LDB),
and steps executing STA, JMP, JZ, OUT or HLT leave Z unchanged. -/
theorem zero_flag_step (s s' : TinyCPU) (h : step s = .ok s') :
    ((s.mem s.PC = 0x04 ∨ s.mem s.PC = 0x07 ∨ s.mem s.PC = 0x08 ∨
      s.mem s.PC = 0x09 ∨ s.mem s.PC = 0xFF) → s'.Z = s.Z) ∧
    (s.mem s.PC = 0x02 → s'.Z = (s'.B == 0)) ∧
    ((s.mem s.PC = 0x01 ∨ s.mem s.PC = 0x03 ∨ s.mem s.PC = 0x05 ∨
      s.mem s.PC = 0x06) → s'.Z = (s'.A == 0)) := by
  have hpc : s.PC < MEM_SIZE := by
    by_contra hc
    rw [step_eq_oob s hc] at h
    exact absurd h (by simp)
  by_cases h1 : s.mem s.PC = 0x01
  · rw [step_eq_LDA s hpc h1] at h
    injection h with h
    subst h
    refine ⟨fun hco => ?_, fun hco => ?_, fun hco => ?_⟩ <;> simp_all
  by_cases h2 : s.mem s.PC = 0x02
  · rw [step_eq_LDB s hpc h2] at h
    injection h with h
    subst h
    refine ⟨fun hco => ?_, fun hco => ?_, fun hco => ?_⟩ <;> simp_all
  by_cases h3 : s.mem s.PC = 0x03
  · by_cases haddr : le16 s.mem ((s.PC + 1) % MEM_SIZE) < MEM_SIZE
    · rw [step_eq_LDA_MEM s hpc h3 haddr] at h
      injection h with h
      subst h
      refine ⟨fun hco => ?_, fun hco => ?_, fun hco => ?_⟩ <;> simp_all
    · rw [step_eq_LDA_MEM_err s hpc h3 haddr] at h
      exact absurd h (by simp)
  by_cases h4 : s.mem s.PC = 0x04
  · by_cases haddr : le16 s.mem ((s.PC + 1) % MEM_SIZE) < MEM_SIZE
    · rw [step_eq_STA s hpc h4 haddr] at h
      injection h with h
      subst h
      refine ⟨fun hco => ?_, fun hco => ?_, fun hco => ?_⟩ <;> simp_all
    · rw [step_eq_STA_err s hpc h4 haddr] at h
      exact absurd h (by simp)
  by_cases h5 : s.mem s.PC = 0x05
  · rw [step_eq_ADD s hpc h5] at h
    injection h with h
    subst h
    refine ⟨fun hco => ?_, fun hco => ?_, fun hco => ?_⟩ <;> simp_all
  by_cases h6 : s.mem s.PC = 0x06
  · rw [step_eq_SUB s hpc h6] at h
    injection h with h
    subst h
    refine ⟨fun hco => ?_, fun hco => ?_, fun hco => ?_⟩ <;> simp_all
  by_cases h7 : s.mem s.PC = 0x07
  · rw [step_eq_JMP s hpc h7] at h
    injection h with h
    subst h
    refine ⟨fun hco => ?_, fun hco => ?_, fun hco => ?_⟩ <;> simp_all
  by_cases h8 : s.mem s.PC = 0x08
  · cases hz : s.Z with
    | true =>
      rw [step_eq_JZ_taken s hpc h8 hz] at h
      injection h with h
      subst h
      refine ⟨fun hco => ?_, fun hco => ?_, fun hco => ?_⟩ <;> simp_all
    | false =>
      rw [step_eq_JZ_not s hpc h8 hz] at h
      injection h with h
      subst h
      refine ⟨fun hco => ?_, fun hco => ?_, fun hco => ?_⟩ <;> simp_all
  by_cases h9 : s.mem s.PC = 0x09
  · rw [step_eq_OUT s hpc h9] at h
    injection h with h
    subst h
    refine ⟨fun hco => ?_, fun hco => ?_, fun hco => ?_⟩ <;> simp_all
  by_cases hff : s.mem s.PC = 0xFF
  · rw [step_eq_HLT s hpc hff] at h
    injection h with h
    subst h
    refine ⟨fun hco => ?_, fun hco => ?_, fun hco => ?_⟩ <;> simp_all
  rw [step_eq_unknown s hpc h1 h2 h3 h4 h5 h6 h7 h8 h9 hff] at h
  exact absurd h (by simp)

/-- A CPU whose memory holds the single encoded instruction LDA 0. -/
def exLDA : TinyCPU := { initCPU with mem := fun a => if a = 0 then 1 else 0 }

/-- The state after executing that LDA 0. -/
def exLDA' : TinyCPU := { exLDA with PC := 3, Z := true }

/-- Claim C7, witness: executing LDA 0 sets Z to (A == 0) = true. -/
theorem zero_flag_step_w :
    step exLDA = .ok exLDA' ∧ exLDA'.Z = (exLDA'.A == 0) :=
  ⟨rfl, (zero_flag_step exLDA exLDA' rfl).2.2 (Or.inl rfl)⟩

/-- Claim C2: a successful step advances PC by 1 (mod 65536) past the
opcode; exactly the operand instructions LDA, LDB, LDA_MEM, STA (and the
jumps JMP / JZ, whose consumed operand becomes the target) read the
little-endian 16-bit operand at the advanced PC, moving PC 2 further;
ADD, SUB, OUT and HLT consume no operand and advance PC by exactly 1. -/
theorem step_operand_consumption (s s' : TinyCPU) (h : step s = .ok s') :
    ((s.mem s.PC = 0x05 ∨ s.mem s.PC = 0x06 ∨ s.mem s.PC = 0x09 ∨
      s.mem s.PC = 0xFF) → s'.PC = (s.PC + 1) % MEM_SIZE) ∧
    ((s.mem s.PC = 0x01 ∨ s.mem s.PC = 0x02 ∨ s.mem s.PC = 0x03 ∨
      s.mem s.PC = 0x04) →
      s'.PC = ((s.PC + 1) % MEM_SIZE + 2) % MEM_SIZE) ∧
    (s.mem s.PC = 0x07 →
      s'.PC = le16 s.mem ((s.PC + 1) % MEM_SIZE) % MEM_SIZE) ∧
    (s.mem s.PC = 0x08 →
      (s.Z = true →
        s'.PC = le16 s.mem ((s.PC + 1) % MEM_SIZE) % MEM_SIZE) ∧
      (s.Z = false →
        s'.PC = ((s.PC + 1) % MEM_SIZE + 2) % MEM_SIZE)) ∧
    (s.mem s.PC = 0x01 →
      s'.A = le16 s.mem ((s.PC + 1) % MEM_SIZE) % 256) := by
  have hpc : s.PC < MEM_SIZE := by
    by_contra hc
    rw [step_eq_oob s hc] at h
    exact absurd h (by simp)
  by_cases h1 : s.mem s.PC = 0x01
  · rw [step_eq_LDA s hpc h1] at h
    injection h with h
    subst h
    refine ⟨fun hco => ?_, fun hco => ?_, fun hco => ?_, fun hco => ?_,
      fun hco => ?_⟩ <;> simp_all
  by_cases h2 : s.mem s.PC = 0x02
  · rw [step_eq_LDB s hpc h2] at h
    injection h with h
    subst h
    refine ⟨fun hco => ?_, fun hco => ?_, fun hco => ?_, fun hco => ?_,
      fun hco => ?_⟩ <;> simp_all
  by_cases h3 : s.mem s.PC = 0x03
  · by_cases haddr : le16 s.mem ((s.PC + 1) % MEM_SIZE) < MEM_SIZE
    · rw [step_eq_LDA_MEM s hpc h3 haddr] at h
      injection h with h
      subst h
      refine ⟨fun hco => ?_, fun hco => ?_, fun hco => ?_, fun hco => ?_,
        fun hco => ?_⟩ <;> simp_all
    · rw [step_eq_LDA_MEM_err s hpc h3 haddr] at h
      exact absurd h (by simp)
  by_cases h4 : s.mem s.PC = 0x04
  · by_cases haddr : le16 s.mem ((s.PC + 1) % MEM_SIZE) < MEM_SIZE
    · rw [step_eq_STA s hpc h4 haddr] at h
      injection h with h
      subst h
      refine ⟨fun hco => ?_, fun hco => ?_, fun hco => ?_, fun hco => ?_,
        fun hco => ?_⟩ <;> simp_all
    · rw [step_eq_STA_err s hpc h4 haddr] at h
      exact absurd h (by simp)
  by_cases h5 : s.mem s.PC = 0x05
  · rw [step_eq_ADD s hpc h5] at h
    injection h with h
    subst h
    refine ⟨fun hco => ?_, fun hco => ?_, fun hco => ?_, fun hco => ?_,
      fun hco => ?_⟩ <;> simp_all
  by_cases h6 : s.mem s.PC = 0x06
  · rw [step_eq_SUB s hpc h6] at h
    injection h with h
    subst h
    refine ⟨fun hco => ?_, fun hco => ?_, fun hco => ?_, fun hco => ?_,
      fun hco => ?_⟩ <;> simp_all
  by_cases h7 : s.mem s.PC = 0x07
  · rw [step_eq_JMP s hpc h7] at h
    injection h with h
    subst h
    refine ⟨fun hco => ?_, fun hco => ?_, fun hco => ?_, fun hco => ?_,
      fun hco => ?_⟩ <;> simp_all
  by_cases h8 : s.mem s.PC = 0x08
  · cases hz : s.Z with
    | true =>
      rw [step_eq_JZ_taken s hpc h8 hz] at h
      injection h with h
      subst h
      refine ⟨fun hco => ?_, fun hco => ?_, fun hco => ?_, fun hco => ?_,
        fun hco => ?_⟩ <;> simp_all
    | false =>
      rw [step_eq_JZ_not s hpc h8 hz] at h
      injection h with h
      subst h
      refine ⟨fun hco => ?_, fun hco => ?_, fun hco => ?_, fun hco => ?_,
        fun hco => ?_⟩ <;> simp_all
  by_cases h9 : s.mem s.PC = 0x09
  · rw [step_eq_OUT s hpc h9] at h
    injection h with h
    subst h
    refine ⟨fun hco => ?_, fun hco => ?_, fun hco => ?_, fun hco => ?_,
      fun hco => ?_⟩ <;> simp_all
  by_cases hff : s.mem s.PC = 0xFF
  · rw [step_eq_HLT s hpc hff] at h
    injection h with h
    subst h
    refine ⟨fun hco => ?_, fun hco => ?_, fun hco => ?_, fun hco => ?_,
      fun hco => ?_⟩ <;> simp_all
  rw [step_eq_unknown s hpc h1 h2 h3 h4 h5 h6 h7 h8 h9 hff] at h
  exact absurd h (by simp)

/-- A CPU whose memory holds the single opcode byte ADD at address 0. -/
def exADD : TinyCPU := { initCPU with mem := fun a => if a = 0 then 5 else 0 }

/-- The state after executing that ADD. -/
def exADD' : TinyCPU := { exADD with PC := 1, Z := true }

/-- Claim C2, witness: executing ADD advances PC by exactly 1. -/
theorem step_operand_consumption_w :
    step exADD = .ok exADD' ∧ exADD'.PC = (exADD.PC + 1) % MEM_SIZE :=
  ⟨rfl, (step_operand_consumption exADD exADD' rfl).1 (Or.inl rfl)⟩

theorem step_no_index_err (s : TinyCPU) (hbytes : ∀ a, s.mem a < 256)
    (hpc : s.PC < MEM_SIZE) : step s ≠ .error StepErr.indexError := by
  intro h
  have haddr : le16 s.mem ((s.PC + 1) % MEM_SIZE) < MEM_SIZE :=
    lor_shift_byte_lt _ _ (hbytes _) (hbytes _)
  by_cases h1 : s.mem s.PC = 0x01
  · rw [step_eq_LDA s hpc h1] at h
    exact absurd h (by simp)
  by_cases h2 : s.mem s.PC = 0x02
  · rw [step_eq_LDB s hpc h2] at h
    exact absurd h (by simp)
  by_cases h3 : s.mem s.PC = 0x03
  · rw [step_eq_LDA_MEM s hpc h3 haddr] at h
    exact absurd h (by simp)
  by_cases h4 : s.mem s.PC = 0x04
  · rw [step_eq_STA s hpc h4 haddr] at h
    exact absurd h (by simp)
  by_cases h5 : s.mem s.PC = 0x05
  · rw [step_eq_ADD s hpc h5] at h
    exact absurd h (by simp)
  by_cases h6 : s.mem s.PC = 0x06
  · rw [step_eq_SUB s hpc h6] at h
    exact absurd h (by simp)
  by_cases h7 : s.mem s.PC = 0x07
  · rw [step_eq_JMP s hpc h7] at h
    exact absurd h (by simp)
  by_cases h8 : s.mem s.PC = 0x08
  · cases hz : s.Z with
    | true =>
      rw [step_eq_JZ_taken s hpc h8 hz] at h
      exact absurd h (by simp)
    | false =>
      rw [step_eq_JZ_not s hpc h8 hz] at h
      exact absurd h (by simp)
  by_cases h9 : s.mem s.PC = 0x09
  · rw [step_eq_OUT s hpc h9] at h
    exact absurd h (by simp)
  by_cases hff : s.mem s.PC = 0xFF
  · rw [step_eq_HLT s hpc hff] at h
    exact absurd h (by simp)
  rw [step_eq_unknown s hpc h1 h2 h3 h4 h5 h6 h7 h8 h9 hff] at h
  exact absurd h (by simp)

/-- Claim C6 (amended): the engine's addressing stays inside memory —
the opcode fetch and operand reads use addresses reduced mod 65536, and
with byte-valued memory the operand-derived addresses of LDA_MEM / STA
are below 65536, so a step never raises an index error.  The loader,
however, does not wrap: its sequential writes succeed exactly when the
program (plus the failsafe byte) fits below address 65536, and a longer
program raises an IndexError. -/
theorem addressing_amended (program : List (String × Nat)) (m : Mem)
    (s : TinyCPU)
    (hk : ∀ p ∈ program, (OPCODES_INV (pyUpper p.1)).isSome = true)
    (hlen : 3 * program.length + 1 ≤ MEM_SIZE)
    (hbytes : ∀ a, s.mem a < 256) (hpc : s.PC < MEM_SIZE) :
    (load_program program m).2 = none ∧
    step s ≠ .error StepErr.indexError := by
  constructor
  · obtain ⟨m1, hrun, -, -⟩ := loadLoop_ok program 0 m hk (by omega)
    simp only [Nat.zero_add] at hrun
    unfold load_program
    rw [hrun]
    dsimp only
    rw [if_pos (by omega : 3 * program.length < MEM_SIZE)]
  · exact step_no_index_err s hbytes hpc

/-- Claim C6, witness: a one-instruction program loads without error, and
a byte-valued state cannot make a step raise an index error. -/
theorem addressing_amended_w :
    (load_program [("LDA", 7)] (fun _ => 0)).2 = none ∧
    step exLDA ≠ .error StepErr.indexError := by
  refine addressing_amended [("LDA", 7)] (fun _ => 0) exLDA (by decide)
    (by decide) ?_ (by decide)
  intro a
  show (if a = 0 then 1 else 0) < 256
  split <;> omega
